import Mathlib

/-!
# HoverReveal (Obsidian plugin) — verification of the annotation engine

Shallow embedding of the core logic of `src/main.ts`:

* the annotation matcher: the global regex
  `\[([^\[\]{}]*?)\]\{([^{}]*?)\}` run in an `exec` loop over the text
  (used identically by the markdown post-processor and by
  `buildDecorations`);
* the static fragment builder of the markdown post-processor
  (interleaving of plain-text slices and widgets, and the final
  `replaceChild` splice);
* the live decoration builder (`buildDecorations` in
  `hoverRevealExtension`), including the inclusive cursor test
  `cursor >= from && cursor <= to` and the `isActive = false` argument of
  every constructed `TooltipWidget`;
* the active/collapsed rendering branch of `TooltipWidget.toDOM`;
* the tooltip repositioning rule of the `mouseover` handlers.

Strings are embedded as `List Char`; offsets are `Nat`.

### Regex semantics

Both character classes of the regex exclude the delimiter that ends the
corresponding group (`]` is not in `[^\[\]{}]`, `}` is not in `[^{}]`), so
the lazy quantifiers are forced: at a given start position the first group
is exactly the maximal run of characters drawn from `[^\[\]{}]`, the
character after it must be `]`, then `{`, the second group is the maximal
run of characters drawn from `[^{}]`, and the character after it must be
`}` — there is no backtracking that could produce any other decomposition.
The `exec` loop with the `g` flag yields the leftmost match, then resumes
scanning at `lastIndex`, the end of the previous match.  `matchAt` below
realizes the forced single-position match, and `scanAux` the loop; the
fuel argument of `scanAux` is initialized to the length of the text, which
suffices because every step consumes at least one character.
-/

namespace HoverReveal

/-- One annotation match, as destructured from the regex result:
`match.index` is `startOffset`, `match.index + fullMatch.length` is
`endOffset` (a half-open range), and the two capture groups are
`visibleText` and `tooltipText`. -/
structure AnnotationMatch where
  visibleText : List Char
  tooltipText : List Char
  startOffset : Nat
  endOffset : Nat
  deriving DecidableEq

/-- Membership in the first character class `[^\[\]{}]` of the regex. -/
def isVisibleChar (c : Char) : Bool :=
  !(c = '[' || c = ']' || c = '{' || c = '}')

/-- Membership in the second character class `[^{}]` of the regex. -/
def isTooltipChar (c : Char) : Bool :=
  !(c = '{' || c = '}')

/-- Attempt the regex `\[([^\[\]{}]*?)\]\{([^{}]*?)\}` anchored at the head
of `s`; on success return the two capture groups. -/
def matchAt (s : List Char) : Option (List Char × List Char) :=
  match s with
  | [] => none
  | c :: rest =>
    if c = '[' then
      match rest.dropWhile isVisibleChar with
      | c1 :: c2 :: rest2 =>
        if c1 = ']' then
          if c2 = '{' then
            match rest2.dropWhile isTooltipChar with
            | c3 :: _ =>
              if c3 = '}' then
                some (rest.takeWhile isVisibleChar, rest2.takeWhile isTooltipChar)
              else none
            | [] => none
          else none
        else none
      | _ => none
    else none

/-- The `regex.exec` loop: scan left to right, at each position try
`matchAt`; on success record the match and resume right after it
(`lastIndex = match.index + fullMatch.length`), on failure advance one
character.  `fuel` bounds the number of steps; every step consumes at
least one character, so `fuel = s.length` is enough. -/
def scanAux : Nat → List Char → Nat → List AnnotationMatch
  | 0, _, _ => []
  | _ + 1, [], _ => []
  | fuel + 1, c :: rest, pos =>
    match matchAt (c :: rest) with
    | some (vis, tip) =>
      { visibleText := vis, tooltipText := tip, startOffset := pos,
        endOffset := pos + (vis.length + tip.length + 4) } ::
        scanAux fuel ((c :: rest).drop (vis.length + tip.length + 4))
          (pos + (vis.length + tip.length + 4))
    | none => scanAux fuel rest (pos + 1)

/-- The annotation matcher: the full list of matches the `exec` loop
produces over `t`, in the order found. -/
def matcher (t : List Char) : List AnnotationMatch :=
  scanAux t.length t 0

/-- The raw source form of an annotation, as rebuilt by the active branch
of `TooltipWidget.toDOM`: the template literal
`[${visibleText}]{${tooltipText}}`. -/
def sourceLiteral (vis tip : List Char) : List Char :=
  '[' :: (vis ++ ']' :: '{' :: (tip ++ ['}']))

/-- `text.slice(a, b)` of JavaScript for `0 <= a <= b <= text.length`. -/
def slice (t : List Char) (a b : Nat) : List Char :=
  (t.drop a).take (b - a)

/-- One entry of the `fragments` array of the markdown post-processor:
either a plain text node or an annotation widget (a
`hover-reveal-container` span built from the two capture groups). -/
inductive Fragment where
  | text : List Char → Fragment
  | widget : List Char → List Char → Fragment
  deriving DecidableEq

/-- The source characters a fragment accounts for: a text node carries its
text, a widget stands for the full matched substring. -/
def fragSource : Fragment → List Char
  | .text s => s
  | .widget vis tip => sourceLiteral vis tip

/-- The fragment-building loop of the post-processor: for each match, push
the text gap since `lastIndex` when it is non-empty (`match.index >
lastIndex`), push the widget, set `lastIndex` to the match end; after the
loop push the trailing text when `lastIndex < text.length`. -/
def buildFragmentsAux (t : List Char) : List AnnotationMatch → Nat → List Fragment
  | [], lastIndex =>
    if lastIndex < t.length then [Fragment.text (slice t lastIndex t.length)] else []
  | m :: ms, lastIndex =>
    (if lastIndex < m.startOffset then [Fragment.text (slice t lastIndex m.startOffset)] else [])
      ++ Fragment.widget m.visibleText m.tooltipText :: buildFragmentsAux t ms m.endOffset

/-- The fragments the post-processor builds for a text node's content. -/
def buildFragments (t : List Char) : List Fragment :=
  buildFragmentsAux t (matcher t) 0

/-- The per-node effect of the post-processor: an empty text is skipped
(`if (!text) return`), and the node is replaced by the fragment sequence
exactly when `fragments.length > 0 && textNode.parentNode` — `none` means
the node is left untouched, `some fs` means `replaceChild` substitutes the
fragments `fs` for the node. -/
def postProcessNode (hasParent : Bool) (t : List Char) : Option (List Fragment) :=
  if t.isEmpty then none
  else
    let frags := buildFragments t
    if frags.length > 0 && hasParent then some frags else none

/-- The state of a `TooltipWidget` (the CodeMirror `WidgetType` subclass):
its constructor arguments apart from the `EditorView`. -/
structure TooltipWidget where
  visibleText : List Char
  tooltipText : List Char
  wFrom : Nat
  wTo : Nat
  isActive : Bool
  deriving DecidableEq

/-- What `TooltipWidget.toDOM` renders: the active branch emits the raw
source literal, the collapsed branch the reveal form (visible text plus
hidden tooltip). -/
inductive RenderOut where
  | raw : List Char → RenderOut
  | reveal : List Char → List Char → RenderOut
  deriving DecidableEq

/-- The branch taken by `TooltipWidget.toDOM` on `isActive`. -/
def widgetRender (w : TooltipWidget) : RenderOut :=
  if w.isActive then .raw (sourceLiteral w.visibleText w.tooltipText)
  else .reveal w.visibleText w.tooltipText

/-- One replacement decoration handed to `Decoration.set`: the widget and
the range `.range(from, to)` it replaces. -/
structure Replace where
  widget : TooltipWidget
  rFrom : Nat
  rTo : Nat
  deriving DecidableEq

/-- The per-match body of the `buildDecorations` loop: with
`isCursorInside = cursor >= from && cursor <= to`, a match containing the
cursor produces nothing, any other match produces a replacement of its
full range by a `TooltipWidget` whose `isActive` argument is `false`. -/
def decorationFor (cursor : Nat) (m : AnnotationMatch) : Option Replace :=
  if m.startOffset ≤ cursor ∧ cursor ≤ m.endOffset then none
  else
    some { widget := { visibleText := m.visibleText, tooltipText := m.tooltipText,
                       wFrom := m.startOffset, wTo := m.endOffset, isActive := false },
           rFrom := m.startOffset, rTo := m.endOffset }

/-- `buildDecorations` of the view plugin: run the matcher over the whole
document and keep a replacement for every match not containing the
primary cursor (`view.state.selection.main.from`). -/
def buildDecorations (content : List Char) (cursor : Nat) : List Replace :=
  (matcher content).filterMap (decorationFor cursor)

/-- A measured bounding rectangle (`getBoundingClientRect`). -/
structure Rect where
  left : ℚ
  right : ℚ
  width : ℚ
  deriving DecidableEq

/-- The resulting alignment of the tooltip after the `mouseover` handler:
`centered` is the CSS default (`left: 50%; transform: translateX(-50%)`),
left unchanged when the handler bails out or neither edge overflows. -/
inductive TooltipAlign where
  | centered
  | leftFlush
  | rightFlush
  deriving DecidableEq

/-- The repositioning rule of the `mouseover` handlers: a zero-width
measurement aborts; else a left-edge overflow pins left
(`left: 0; transform: translateX(0)`); else a right-edge overflow pins
right (`left: auto; right: 0; transform: translateX(0)`); else the
default centered alignment stays. -/
def repositionTooltip (tooltipRect containerRect : Rect) : TooltipAlign :=
  if tooltipRect.width = 0 then .centered
  else if tooltipRect.left < containerRect.left then .leftFlush
  else if tooltipRect.right > containerRect.right then .rightFlush
  else .centered

/-! ## Supporting lemmas -/

/-- `takeWhile`/`dropWhile` on a list that starts with a run of satisfying
elements followed by a failing one. -/
theorem takeWhile_dropWhile_append {α : Type} (p : α → Bool) (l : List α) (c : α) (r : List α)
    (hl : ∀ a ∈ l, p a = true) (hc : p c = false) :
    (l ++ c :: r).takeWhile p = l ∧ (l ++ c :: r).dropWhile p = c :: r := by
  induction l with
  | nil =>
    simp [List.takeWhile_cons, List.dropWhile_cons, hc]
  | cons a l ih =>
    have ha : p a = true := hl a (by simp)
    have h' := ih (fun x hx => hl x (by simp [hx]))
    simp [List.takeWhile_cons_of_pos ha, List.dropWhile_cons_of_pos ha, h'.1, h'.2]

theorem sourceLiteral_length (vis tip : List Char) :
    (sourceLiteral vis tip).length = vis.length + tip.length + 4 := by
  simp [sourceLiteral]
  omega

/-- The forced decomposition behind the lazy regex: `matchAt` succeeds with
groups `(v, t)` exactly when the input starts with `[`, then `v` drawn
from `[^\[\]{}]`, then `]{`, then `t` drawn from `[^{}]`, then `}`. -/
theorem matchAt_eq_some_iff (s v t : List Char) :
    matchAt s = some (v, t) ↔
      ((∀ c ∈ v, isVisibleChar c = true) ∧ (∀ c ∈ t, isTooltipChar c = true) ∧
        ∃ rest, s = sourceLiteral v t ++ rest) := by
  constructor
  · intro h
    unfold matchAt at h
    split at h
    · exact absurd h (by simp)
    · rename_i c rest
      split at h
      · rename_i hc
        subst hc
        split at h
        · rename_i c1 c2 rest2 hdrop
          split at h
          · rename_i hc1
            subst hc1
            split at h
            · rename_i hc2
              subst hc2
              split at h
              · rename_i c3 tl hdrop2
                split at h
                · rename_i hc3
                  subst hc3
                  simp only [Option.some.injEq, Prod.mk.injEq] at h
                  obtain ⟨hv, htp⟩ := h
                  subst hv htp
                  refine ⟨fun c hc => List.mem_takeWhile_imp hc,
                          fun c hc => List.mem_takeWhile_imp hc, tl, ?_⟩
                  have e1 : rest.takeWhile isVisibleChar ++ (']' :: '{' :: rest2) = rest := by
                    rw [← hdrop]
                    exact List.takeWhile_append_dropWhile isVisibleChar rest
                  have e2 : rest2.takeWhile isTooltipChar ++ ('}' :: tl) = rest2 := by
                    rw [← hdrop2]
                    exact List.takeWhile_append_dropWhile isTooltipChar rest2
                  have hr : sourceLiteral (rest.takeWhile isVisibleChar)
                      (rest2.takeWhile isTooltipChar) ++ tl = '[' :: rest := by
                    simp only [sourceLiteral, List.cons_append, List.append_assoc,
                      List.singleton_append, List.nil_append]
                    rw [e2, e1]
                  exact hr.symm
                · exact absurd h (by simp)
              · exact absurd h (by simp)
            · exact absurd h (by simp)
          · exact absurd h (by simp)
        · exact absurd h (by simp)
      · exact absurd h (by simp)
  · rintro ⟨hv, ht, rest, rfl⟩
    have e1 := takeWhile_dropWhile_append isVisibleChar v ']' ('{' :: (t ++ '}' :: rest))
      hv (by decide)
    have e2 := takeWhile_dropWhile_append isTooltipChar t '}' rest ht (by decide)
    have hs : sourceLiteral v t ++ rest = '[' :: (v ++ ']' :: '{' :: (t ++ '}' :: rest)) := by
      simp [sourceLiteral]
    rw [hs]
    unfold matchAt
    simp [e1.1, e1.2, e2.1, e2.2]

/-- Every match of a scan starting at `pos` starts at or after `pos` and
spans at least the four delimiter characters. -/
theorem mem_scanAux_bounds : ∀ (fuel : Nat) (s : List Char) (pos : Nat) (m : AnnotationMatch),
    m ∈ scanAux fuel s pos → pos ≤ m.startOffset ∧ m.startOffset + 4 ≤ m.endOffset := by
  intro fuel
  induction fuel with
  | zero => intro s pos m hm; simp [scanAux] at hm
  | succ n ih =>
    intro s pos m hm
    match s with
    | [] => simp [scanAux] at hm
    | c :: rest =>
      rw [scanAux] at hm
      cases hmt : matchAt (c :: rest) with
      | none =>
        rw [hmt] at hm
        have := ih rest (pos + 1) m hm
        omega
      | some vt =>
        obtain ⟨vis, tip⟩ := vt
        rw [hmt] at hm
        simp only [List.mem_cons] at hm
        rcases hm with rfl | hm
        · simp
        · have := ih _ _ m hm
          omega

/-- The scan produces matches in strictly increasing start order, each
ending at or before the start of the next. -/
theorem scanAux_pairwise : ∀ (fuel : Nat) (s : List Char) (pos : Nat),
    (scanAux fuel s pos).Pairwise
      (fun a b => a.startOffset < b.startOffset ∧ a.endOffset ≤ b.startOffset) := by
  intro fuel
  induction fuel with
  | zero => intro s pos; simp [scanAux]
  | succ n ih =>
    intro s pos
    match s with
    | [] => simp [scanAux]
    | c :: rest =>
      rw [scanAux]
      cases hmt : matchAt (c :: rest) with
      | none => exact ih rest (pos + 1)
      | some vt =>
        obtain ⟨vis, tip⟩ := vt
        refine List.Pairwise.cons ?_ (ih _ _)
        intro b hb
        have hb' := mem_scanAux_bounds n _ _ b hb
        simp only
        omega

/-- Each match's reconstructed source `[vis]{tip}` is exactly the slice of
the scanned text at its offsets. -/
theorem scanAux_slice : ∀ (fuel : Nat) (s : List Char) (pos : Nat) (m : AnnotationMatch),
    m ∈ scanAux fuel s pos →
      sourceLiteral m.visibleText m.tooltipText =
        (s.drop (m.startOffset - pos)).take (m.endOffset - m.startOffset) := by
  intro fuel
  induction fuel with
  | zero => intro s pos m hm; simp [scanAux] at hm
  | succ n ih =>
    intro s pos m hm
    match s with
    | [] => simp [scanAux] at hm
    | c :: rest =>
      rw [scanAux] at hm
      cases hmt : matchAt (c :: rest) with
      | none =>
        rw [hmt] at hm
        have hb := mem_scanAux_bounds n rest (pos + 1) m hm
        have h1 : m.startOffset - pos = (m.startOffset - (pos + 1)) + 1 := by omega
        rw [h1, List.drop_succ_cons]
        exact ih rest (pos + 1) m hm
      | some vt =>
        obtain ⟨vis, tip⟩ := vt
        rw [hmt] at hm
        simp only [List.mem_cons] at hm
        rcases hm with rfl | hm
        · simp only [Nat.sub_self, List.drop_zero, Nat.add_sub_cancel_left]
          obtain ⟨_, _, rest2, hdecomp⟩ := (matchAt_eq_some_iff (c :: rest) vis tip).mp hmt
          rw [hdecomp]
          exact (List.take_left' (sourceLiteral_length vis tip)).symm
        · have hb := mem_scanAux_bounds n _ _ m hm
          have := ih _ _ m hm
          rw [List.drop_drop] at this
          have h2 : vis.length + tip.length + 4 + (m.startOffset - (pos + (vis.length + tip.length + 4))) =
              m.startOffset - pos := by omega
          rw [h2] at this
          exact this

theorem isVisibleChar_iff (c : Char) :
    isVisibleChar c = true ↔ (c ≠ '[' ∧ c ≠ ']' ∧ c ≠ '{' ∧ c ≠ '}') := by
  simp [isVisibleChar, not_or]
  tauto

theorem isTooltipChar_iff (c : Char) :
    isTooltipChar c = true ↔ (c ≠ '{' ∧ c ≠ '}') := by
  simp [isTooltipChar, not_or]

/-- A successful `decorationFor` copies the match verbatim: the range is
the match's span and the widget carries the match's texts with
`isActive = false`. -/
theorem decorationFor_fields {cursor : Nat} {m : AnnotationMatch} {r : Replace}
    (h : decorationFor cursor m = some r) :
    r.rFrom = m.startOffset ∧ r.rTo = m.endOffset ∧ r.widget.isActive = false ∧
      r.widget.visibleText = m.visibleText ∧ r.widget.tooltipText = m.tooltipText := by
  unfold decorationFor at h
  split at h
  · cases h
  · cases h
    exact ⟨rfl, rfl, rfl, rfl, rfl⟩

/-! ## Claims -/

/-- Claim C1: for every input string, the matcher's match list is pairwise
non-overlapping and sorted by strictly ascending start offset, each end
offset at most the next start offset; and so are the replacement ranges
`buildDecorations` hands to the host rendering layer. -/
theorem matcher_sorted_nonoverlapping : ∀ (t : List Char) (cursor : Nat),
    (matcher t).Pairwise
      (fun a b => a.startOffset < b.startOffset ∧ a.endOffset ≤ b.startOffset) ∧
    (buildDecorations t cursor).Pairwise
      (fun a b => a.rFrom < b.rFrom ∧ a.rTo ≤ b.rFrom) := by
  intro t cursor
  have hp := scanAux_pairwise t.length t 0
  refine ⟨hp, ?_⟩
  rw [buildDecorations, List.pairwise_filterMap]
  refine hp.imp ?_
  intro a b hab
  intro r hr r' hr'
  have ha := decorationFor_fields hr
  have hb := decorationFor_fields hr'
  refine ⟨?_, ?_⟩
  · rw [ha.1, hb.1]; exact hab.1
  · rw [ha.2.1, hb.1]; exact hab.2

/-- Claim C2: a match is left as raw source (no replacement decoration)
iff the primary cursor `c` satisfies `start <= c <= end`, boundaries
inclusive; otherwise it yields a replacement covering exactly `[start,
end]`, and `buildDecorations` is precisely this per-match rule mapped over
the matcher output. -/
theorem buildDecorations_active_iff : ∀ (cursor : Nat) (m : AnnotationMatch),
    (decorationFor cursor m = none ↔ (m.startOffset ≤ cursor ∧ cursor ≤ m.endOffset)) ∧
    (∀ r, decorationFor cursor m = some r → r.rFrom = m.startOffset ∧ r.rTo = m.endOffset) ∧
    (∀ content, buildDecorations content cursor =
      (matcher content).filterMap (decorationFor cursor)) := by
  intro cursor m
  refine ⟨?_, ?_, fun _ => rfl⟩
  · unfold decorationFor
    split <;> simp_all
  · intro r h
    have := decorationFor_fields h
    exact ⟨this.1, this.2.1⟩

theorem buildDecorations_active_iff_witness :
    ((⟨⟨['a'], ['b'], 0, 6, false⟩, 0, 6⟩ : Replace).rFrom = 0 ∧
     (⟨⟨['a'], ['b'], 0, 6, false⟩, 0, 6⟩ : Replace).rTo = 6) ∧
    decorationFor 3 ⟨['a'], ['b'], 0, 6⟩ = none :=
  ⟨(buildDecorations_active_iff 10 ⟨['a'], ['b'], 0, 6⟩).2.1 _ (by decide),
   (buildDecorations_active_iff 3 ⟨['a'], ['b'], 0, 6⟩).1.mpr (by decide)⟩

/-- Claim C3: a position starts a match with groups `(v, t)` exactly when
the text there reads `[v]{t}` with `v` free of all four delimiter
characters and `t` free of braces (brackets allowed in `t`); both groups
may be empty, and `[]{}` yields exactly one match with empty groups. -/
theorem matchAt_grammar_characterization :
    (∀ (s v t : List Char), matchAt s = some (v, t) ↔
      ((∀ c ∈ v, c ≠ '[' ∧ c ≠ ']' ∧ c ≠ '{' ∧ c ≠ '}') ∧
       (∀ c ∈ t, c ≠ '{' ∧ c ≠ '}') ∧
        ∃ rest, s = sourceLiteral v t ++ rest)) ∧
    matcher ("[]\x7b\x7d".toList) =
      [{ visibleText := [], tooltipText := [], startOffset := 0, endOffset := 4 }] := by
  refine ⟨?_, by decide⟩
  intro s v t
  rw [matchAt_eq_some_iff]
  constructor
  · rintro ⟨hv, ht, rest, rfl⟩
    exact ⟨fun c hc => (isVisibleChar_iff c).mp (hv c hc),
           fun c hc => (isTooltipChar_iff c).mp (ht c hc), rest, rfl⟩
  · rintro ⟨hv, ht, rest, rfl⟩
    exact ⟨fun c hc => (isVisibleChar_iff c).mpr (hv c hc),
           fun c hc => (isTooltipChar_iff c).mpr (ht c hc), rest, rfl⟩

theorem matchAt_grammar_characterization_witness :
    matchAt ("[x]\x7b[y]\x7d".toList) = some (['x'], ['[', 'y', ']']) :=
  (matchAt_grammar_characterization.1 _ _ _).mpr
    ⟨by decide, by decide, [], by decide⟩

/-- Claim C4: round-trip with no character loss — for every match of the
matcher over `t`, the active widget's literal `[visibleText]{tooltipText}`
equals the substring `t[start, end)` character for character. -/
theorem matcher_round_trip : ∀ (t : List Char) (m : AnnotationMatch),
    m ∈ matcher t →
      sourceLiteral m.visibleText m.tooltipText = slice t m.startOffset m.endOffset := by
  intro t m hm
  have h := scanAux_slice t.length t 0 m hm
  simpa [slice] using h

theorem matcher_round_trip_witness :
    ((⟨['a'], ['b'], 0, 6⟩ : AnnotationMatch) ∈ matcher ("[a]\x7bb\x7d".toList)) ∧
    sourceLiteral ['a'] ['b'] = slice ("[a]\x7bb\x7d".toList) 0 6 :=
  ⟨by decide, matcher_round_trip ("[a]\x7bb\x7d".toList) ⟨['a'], ['b'], 0, 6⟩ (by decide)⟩

/-- Claim C5: adjacent annotations with no separating text both match —
on `[a]{b}[c]{d}` the matcher returns exactly two matches in order, the
second starting exactly at the first's end offset. -/
theorem matcher_adjacent_pair :
    matcher ("[a]\x7bb\x7d[c]\x7bd\x7d".toList) =
      [{ visibleText := ['a'], tooltipText := ['b'], startOffset := 0, endOffset := 6 },
       { visibleText := ['c'], tooltipText := ['d'], startOffset := 6, endOffset := 12 }] ∧
    ({ visibleText := ['c'], tooltipText := ['d'], startOffset := 6, endOffset := 12 }
        : AnnotationMatch).startOffset =
      ({ visibleText := ['a'], tooltipText := ['b'], startOffset := 0, endOffset := 6 }
        : AnnotationMatch).endOffset := by
  decide

/-- Claim C6: a malformed candidate is not an error and not a match —
`[a](b)` yields zero matches and scanning simply continues past it, as the
second input shows. -/
theorem matcher_malformed_skipped :
    matcher ("[a](b)".toList) = [] ∧
    matcher ("[a](b)[c]\x7bd\x7d".toList) =
      [{ visibleText := ['c'], tooltipText := ['d'], startOffset := 6, endOffset := 12 }] := by
  decide

/-- Claim C7 (counterexample): with zero matches the post-processor still
replaces the text node — the fragment list holds the whole text as one
text node and `fragments.length > 0` makes `replaceChild` run, so the node
is not left untouched. -/
theorem postProcess_no_match_still_replaces :
    matcher ("hello".toList) = [] ∧ postProcessNode true ("hello".toList) ≠ none := by
  decide

/-- Claim C7 (amended): when the matcher finds zero matches in a nonempty
text node, the builder produces zero widgets — the node is replaced by a
single plain-text fragment carrying the entire original text, so content
is preserved even though a structural replacement does occur. -/
theorem postProcess_no_match_single_text : ∀ (t : List Char), t ≠ [] → matcher t = [] →
    postProcessNode true t = some [Fragment.text t] := by
  intro t ht hm
  match t, ht with
  | c :: rest, _ =>
    simp [postProcessNode, buildFragments, hm, buildFragmentsAux, slice, List.take_length]

theorem postProcess_no_match_single_text_witness :
    ("hello".toList ≠ []) ∧ matcher ("hello".toList) = [] ∧
    postProcessNode true ("hello".toList) = some [Fragment.text ("hello".toList)] :=
  ⟨by decide, by decide, postProcess_no_match_single_text ("hello".toList) (by decide) (by decide)⟩

/-- Claim C8: the two-sided adjustment rule of the hover handler — a
zero-width measurement aborts (default stays); else a tooltip left edge
left of the container pins left-flush; else a right edge right of the
container pins right-flush; otherwise the centered default is unchanged. -/
theorem repositionTooltip_rule : ∀ (t c : Rect),
    (repositionTooltip t c = .leftFlush ↔ t.width ≠ 0 ∧ t.left < c.left) ∧
    (repositionTooltip t c = .rightFlush ↔
      t.width ≠ 0 ∧ ¬ t.left < c.left ∧ c.right < t.right) ∧
    (t.width = 0 → repositionTooltip t c = .centered) ∧
    (t.width ≠ 0 → ¬ t.left < c.left → ¬ c.right < t.right →
      repositionTooltip t c = .centered) := by
  intro t c
  refine ⟨?_, ?_, ?_, ?_⟩ <;>
    (unfold repositionTooltip; split_ifs <;> simp_all)

theorem repositionTooltip_rule_witness :
    repositionTooltip ⟨-1, 5, 6⟩ ⟨0, 100, 100⟩ = .leftFlush :=
  ((repositionTooltip_rule ⟨-1, 5, 6⟩ ⟨0, 100, 100⟩).1).mpr ⟨by norm_num, by norm_num⟩

/-- Claim C9: the static render of `"See [here]{click for details} now."`
produces exactly three fragments in order — the text `"See "`, one widget
with visible `"here"` and tooltip `"click for details"`, and the text
`" now."` — and their source characters concatenate back to the input. -/
theorem postProcess_end_to_end :
    postProcessNode true ("See [here]\x7bclick for details\x7d now.".toList) =
      some [Fragment.text ("See ".toList),
            Fragment.widget ("here".toList) ("click for details".toList),
            Fragment.text (" now.".toList)] ∧
    fragSource (Fragment.text ("See ".toList)) ++
      (fragSource (Fragment.widget ("here".toList) ("click for details".toList)) ++
        fragSource (Fragment.text (" now.".toList))) =
      "See [here]\x7bclick for details\x7d now.".toList := by
  decide

/-- Claim C10: every replacement widget the live builder constructs
carries `isActive = false`, so its rendering always takes the collapsed
reveal branch — the active branch emitting the raw source literal is
unreachable from `buildDecorations`. -/
theorem buildDecorations_never_active : ∀ (content : List Char) (cursor : Nat) (r : Replace),
    r ∈ buildDecorations content cursor →
      r.widget.isActive = false ∧
      widgetRender r.widget = RenderOut.reveal r.widget.visibleText r.widget.tooltipText := by
  intro content cursor r hr
  obtain ⟨m, _, hd⟩ := List.mem_filterMap.mp hr
  have hf := decorationFor_fields hd
  refine ⟨hf.2.2.1, ?_⟩
  unfold widgetRender
  rw [hf.2.2.1]
  simp

theorem buildDecorations_never_active_witness :
    ((⟨⟨['a'], ['b'], 0, 6, false⟩, 0, 6⟩ : Replace).widget.isActive = false) ∧
    widgetRender (⟨⟨['a'], ['b'], 0, 6, false⟩, 0, 6⟩ : Replace).widget =
      RenderOut.reveal ['a'] ['b'] :=
  buildDecorations_never_active ("[a]\x7bb\x7d".toList) 10 _ (by decide)

end HoverReveal
